import Mathlib

/-!
Verification of the quickboard geometry and interaction kernel.

The development shallowly embeds the TypeScript sources:
  * `src/utils/geometry.ts`  — pure geometry kernel
  * `src/hooks/useHistory.ts` — bounded history of stroke-list snapshots
  * the `Blackboard` component (pointer handlers `handleStart`,
    `handleMove`, `handleEnd` and the imperative `undo` / `redo` /
    `clear` / `deleteSelected` commands)

Coordinates are embedded as rationals (the source computes with JS
doubles; all claims under consideration are exact-arithmetic claims).
Trigonometric values produced by `Math.cos` / `Math.sin` / `Math.atan2`
are passed in as parameters (a `Trig` record of functions), since the
embedded claims only ever constrain them through the unit-circle
identity; theorems quantify over those values.  Euclidean distances,
which the source obtains with `Math.hypot` and then compares against a
non-negative threshold, are embedded as squared distances compared
against the squared threshold — an equivalent exact formulation.
-/

namespace Quickboard

/-- `Point` from `src/types.ts`: `{x, y}` in pixel space. -/
structure Point where
  x : ℚ
  y : ℚ
deriving DecidableEq, Repr

/-- `BoundingBox` from `src/types.ts`: axis-aligned, pre-rotation. -/
structure BoundingBox where
  x : ℚ
  y : ℚ
  width : ℚ
  height : ℚ
deriving DecidableEq, Repr

/-- `StrokeType` from `src/types.ts`. -/
inductive StrokeType where
  | freehand
  | rect
  | circle
  | arrow
deriving DecidableEq, Repr

/-- `ToolType` from `src/types.ts`. -/
inductive ToolType where
  | chalk
  | select
  | eraser
  | rect
  | circle
  | arrow
deriving DecidableEq, Repr

/-- `ResizeHandle`: the nine named handles used by `getHandleCoords`. -/
inductive ResizeHandle where
  | nw
  | ne
  | se
  | sw
  | n
  | s
  | e
  | w
  | rot
deriving DecidableEq, Repr

/-- `Stroke` from `src/types.ts` (with the `rotation` field used
throughout the Blackboard component and the geometry kernel).  The
transient `isSelected` flag is never read by the kernel and is tracked
externally by the selection set, so it is omitted here. -/
structure Stroke where
  id : String
  type : StrokeType
  points : List Point
  color : String
  width : ℚ
  position : Point
  rotation : ℚ
deriving DecidableEq, Repr

/-- The values of `Math.cos`, `Math.sin` and `Math.atan2` consumed by
the kernel.  The source computes them with floating-point
trigonometry; the embedding abstracts them as an arbitrary function
record, and theorems add the unit-circle identity where it is needed. -/
structure Trig where
  cos : ℚ → ℚ
  sin : ℚ → ℚ
  atan2 : ℚ → ℚ → ℚ

/-- `rotatePoint` from `src/utils/geometry.ts`, with the values
`cos angle` and `sin angle` passed explicitly (the source computes
`Math.cos(angle)` and `Math.sin(angle)` and then applies exactly this
formula). -/
def rotatePointCS (p center : Point) (cosv sinv : ℚ) : Point :=
  let dx := p.x - center.x
  let dy := p.y - center.y
  ⟨center.x + (dx * cosv - dy * sinv), center.y + (dx * sinv + dy * cosv)⟩

/-- `getCenter` from `src/utils/geometry.ts`. -/
def getCenter (box : BoundingBox) : Point :=
  ⟨box.x + box.width / 2, box.y + box.height / 2⟩

/-- The running-minimum fold `if (v < m) m = v` used by
`getUnrotatedBounds` and `normalizePoints`.  The source initialises the
accumulator to `Infinity` and folds over the whole (non-empty) list;
this equals folding over the list with the first visited value as the
initial accumulator, which is how the callers below instantiate it. -/
def minFold (l : List ℚ) (init : ℚ) : ℚ :=
  l.foldl (fun m v => if v < m then v else m) init

/-- The running-maximum fold `if (v > m) m = v`; see `minFold` for the
treatment of the `-Infinity` initial accumulator. -/
def maxFold (l : List ℚ) (init : ℚ) : ℚ :=
  l.foldl (fun m v => if v > m then v else m) init

/-- `getUnrotatedBounds` from `src/utils/geometry.ts`: min/max over
`points` offset by `position`; a zero-size box at `position` when
`points` is empty. -/
def getUnrotatedBounds (st : Stroke) : BoundingBox :=
  match st.points with
  | [] => ⟨st.position.x, st.position.y, 0, 0⟩
  | p :: ps =>
    let xs := (p :: ps).map Point.x
    let ys := (p :: ps).map Point.y
    let minX := minFold xs p.x
    let maxX := maxFold xs p.x
    let minY := minFold ys p.y
    let maxY := maxFold ys p.y
    ⟨minX + st.position.x, minY + st.position.y, maxX - minX, maxY - minY⟩

/-- Result record of `normalizePoints`. -/
structure NormalizedPoints where
  points : List Point
  offset : Point
  width : ℚ
  height : ℚ
deriving DecidableEq, Repr

/-- `normalizePoints` from `src/utils/geometry.ts`. -/
def normalizePoints (points : List Point) : NormalizedPoints :=
  match points with
  | [] => ⟨[], ⟨0, 0⟩, 0, 0⟩
  | p :: ps =>
    let xs := (p :: ps).map Point.x
    let ys := (p :: ps).map Point.y
    let minX := minFold xs p.x
    let maxX := maxFold xs p.x
    let minY := minFold ys p.y
    let maxY := maxFold ys p.y
    ⟨(p :: ps).map (fun q => ⟨q.x - minX, q.y - minY⟩), ⟨minX, minY⟩,
      maxX - minX, maxY - minY⟩

/-- The selection rectangle held in the `selectionBox` component state. -/
structure SelBox where
  start : Point
  current : Point
deriving DecidableEq, Repr

/-- `getSelectionBoxBounds` from `src/utils/geometry.ts`. -/
def getSelectionBoxBounds (box : SelBox) : BoundingBox :=
  ⟨min box.start.x box.current.x, min box.start.y box.current.y,
    |box.current.x - box.start.x|, |box.current.y - box.start.y|⟩

/-- The `xOverlap` local of `checkIntersection50Percent`. -/
def xOverlap (selection strokeBounds : BoundingBox) : ℚ :=
  max 0 (min (selection.x + selection.width) (strokeBounds.x + strokeBounds.width)
          - max selection.x strokeBounds.x)

/-- The `yOverlap` local of `checkIntersection50Percent`. -/
def yOverlap (selection strokeBounds : BoundingBox) : ℚ :=
  max 0 (min (selection.y + selection.height) (strokeBounds.y + strokeBounds.height)
          - max selection.y strokeBounds.y)

/-- `checkIntersection50Percent` from `src/utils/geometry.ts`
(the literal `0.5` is the exact double one half). -/
def checkIntersection50Percent (selection strokeBounds : BoundingBox) : Bool :=
  let intersectionArea := xOverlap selection strokeBounds * yOverlap selection strokeBounds
  let strokeArea := strokeBounds.width * strokeBounds.height
  if strokeArea = 0 then false
  else decide (intersectionArea / strokeArea ≥ 1 / 2)

/-- Squared `distanceToSegment` from `src/utils/geometry.ts`.  The
source returns the Euclidean distance (via `Math.hypot`) and every
caller compares it against a non-negative threshold; the embedding
returns the square, to be compared against the squared threshold.  The
projection parameter `t` and the zero-length-segment guard are exactly
those of the source. -/
def distSqToSegment (p v w : Point) : ℚ :=
  let l2 := (w.x - v.x) ^ 2 + (w.y - v.y) ^ 2
  if l2 = 0 then (p.x - v.x) ^ 2 + (p.y - v.y) ^ 2
  else
    let t0 := ((p.x - v.x) * (w.x - v.x) + (p.y - v.y) * (w.y - v.y)) / l2
    let t := max 0 (min 1 t0)
    (p.x - (v.x + t * (w.x - v.x))) ^ 2 + (p.y - (v.y + t * (w.y - v.y))) ^ 2

/-- `hitTestStroke` from `src/utils/geometry.ts`.  The source computes
`localP = rotatePoint(p, center, -stroke.rotation)`; the two values
`Math.cos(-stroke.rotation)` and `Math.sin(-stroke.rotation)` are the
parameters `cosNegR` and `sinNegR` here.  Segment distances are
compared squared (see `distSqToSegment`); the circle tolerance `0.2`
is embedded as `1/5`. -/
def hitTestStroke (st : Stroke) (cosNegR sinNegR : ℚ) (p : Point) (threshold : ℚ) : Bool :=
  let bounds := getUnrotatedBounds st
  let center := getCenter bounds
  let localP := rotatePointCS p center cosNegR sinNegR
  let relativeP : Point := ⟨localP.x - st.position.x, localP.y - st.position.y⟩
  if localP.x < bounds.x - threshold ∨ localP.x > bounds.x + bounds.width + threshold ∨
     localP.y < bounds.y - threshold ∨ localP.y > bounds.y + bounds.height + threshold then
    false
  else
    match st.type with
    | .rect =>
      let minX := bounds.x
      let maxX := bounds.x + bounds.width
      let minY := bounds.y
      let maxY := bounds.y + bounds.height
      decide (((minY - threshold ≤ localP.y ∧ localP.y ≤ maxY + threshold) ∧
               (|localP.x - minX| < threshold ∨ |localP.x - maxX| < threshold)) ∨
              ((minX - threshold ≤ localP.x ∧ localP.x ≤ maxX + threshold) ∧
               (|localP.y - minY| < threshold ∨ |localP.y - maxY| < threshold)))
    | .circle =>
      let radiusX := bounds.width / 2
      let radiusY := bounds.height / 2
      let normX := localP.x - center.x
      let normY := localP.y - center.y
      let dist := normX * normX / (radiusX * radiusX) + normY * normY / (radiusY * radiusY)
      decide (|dist - 1| < 1 / 5)
    | .freehand | .arrow =>
      (st.points.zip st.points.tail).any
        (fun pr => decide (distSqToSegment relativeP pr.1 pr.2 < threshold ^ 2))

/-- The record returned by `getHandleCoords`. -/
structure HandleCoords where
  nw : Point
  ne : Point
  se : Point
  sw : Point
  n : Point
  s : Point
  e : Point
  w : Point
  rot : Point
deriving DecidableEq, Repr

/-- `getHandleCoords` from `src/utils/geometry.ts`: the four corners,
four edge midpoints and the rotation handle 30 units above the top
edge, each rotated about the bounds center by `stroke.rotation`
(whose cosine and sine are obtained from the `Trig` record). -/
def getHandleCoords (T : Trig) (st : Stroke) : HandleCoords :=
  let bounds := getUnrotatedBounds st
  let center := getCenter bounds
  let cr := T.cos st.rotation
  let sr := T.sin st.rotation
  let nw : Point := ⟨bounds.x, bounds.y⟩
  let ne : Point := ⟨bounds.x + bounds.width, bounds.y⟩
  let se : Point := ⟨bounds.x + bounds.width, bounds.y + bounds.height⟩
  let sw : Point := ⟨bounds.x, bounds.y + bounds.height⟩
  let n : Point := ⟨bounds.x + bounds.width / 2, bounds.y⟩
  let s : Point := ⟨bounds.x + bounds.width / 2, bounds.y + bounds.height⟩
  let e : Point := ⟨bounds.x + bounds.width, bounds.y + bounds.height / 2⟩
  let w : Point := ⟨bounds.x, bounds.y + bounds.height / 2⟩
  let rotHandle : Point := ⟨bounds.x + bounds.width / 2, bounds.y - 30⟩
  ⟨rotatePointCS nw center cr sr, rotatePointCS ne center cr sr,
   rotatePointCS se center cr sr, rotatePointCS sw center cr sr,
   rotatePointCS n center cr sr, rotatePointCS s center cr sr,
   rotatePointCS e center cr sr, rotatePointCS w center cr sr,
   rotatePointCS rotHandle center cr sr⟩

/-- Squared Euclidean distance; the source `distance` uses
`Math.hypot`, and `hitTestHandles` only compares it against the
non-negative threshold `10 / scale`, so the squared comparison below
is equivalent. -/
def distSq (a b : Point) : ℚ :=
  (b.x - a.x) ^ 2 + (b.y - a.y) ^ 2

/-- `hitTestHandles` from `src/utils/geometry.ts`: the first handle,
in source order `rot, nw, ne, se, sw, n, s, e, w`, within `10 / scale`
of `p`. -/
def hitTestHandles (T : Trig) (st : Stroke) (p : Point) (scale : ℚ) : Option ResizeHandle :=
  let handles := getHandleCoords T st
  let threshold := 10 / scale
  if distSq p handles.rot < threshold ^ 2 then some .rot
  else if distSq p handles.nw < threshold ^ 2 then some .nw
  else if distSq p handles.ne < threshold ^ 2 then some .ne
  else if distSq p handles.se < threshold ^ 2 then some .se
  else if distSq p handles.sw < threshold ^ 2 then some .sw
  else if distSq p handles.n < threshold ^ 2 then some .n
  else if distSq p handles.s < threshold ^ 2 then some .s
  else if distSq p handles.e < threshold ^ 2 then some .e
  else if distSq p handles.w < threshold ^ 2 then some .w
  else none

/-! ## History manager (`src/hooks/useHistory.ts`) -/

/-- The two pieces of state of `useHistory`: the snapshot list and the
current index. -/
structure HistoryState where
  hist : List (List Stroke)
  index : ℕ
deriving DecidableEq, Repr

/-- `pushToHistory` from `src/hooks/useHistory.ts`:
`prev.slice(0, historyIndex + 1)`, append, `shift()` when the length
exceeds 50, and index `historyIndex + 1` clamped to 49. -/
def pushToHistory (st : HistoryState) (newStrokes : List Stroke) : HistoryState :=
  let newHistory := st.hist.take (st.index + 1) ++ [newStrokes]
  let newHistory := if newHistory.length > 50 then newHistory.tail else newHistory
  let nextIndex := st.index + 1
  ⟨newHistory, if nextIndex > 49 then 49 else nextIndex⟩

/-- `updateCurrentHistory` from `src/hooks/useHistory.ts`: replace the
snapshot at the current index in place (`List.set` is a no-op when the
index is out of range, matching the reachable states of the source,
where the index is always in range). -/
def updateCurrentHistory (st : HistoryState) (updatedStrokes : List Stroke) : HistoryState :=
  ⟨st.hist.set st.index updatedStrokes, st.index⟩

/-- `undo` from `src/hooks/useHistory.ts`: decrement the index when
`canUndo` (`historyIndex > 0`). -/
def undoHistory (st : HistoryState) : HistoryState :=
  if st.index > 0 then ⟨st.hist, st.index - 1⟩ else st

/-- `redo` from `src/hooks/useHistory.ts`: increment the index when
`canRedo` (`historyIndex < history.length - 1`, stated without
truncated subtraction). -/
def redoHistory (st : HistoryState) : HistoryState :=
  if st.index + 1 < st.hist.length then ⟨st.hist, st.index + 1⟩ else st

/-- `clear` from `src/hooks/useHistory.ts`: `pushToHistory([])`. -/
def clearHistory (st : HistoryState) : HistoryState :=
  pushToHistory st []

/-! ## Interaction controller (the `Blackboard` component)

The component state that participates in the logic: history, the
in-progress stroke, the drawing flag, the selection set, the marquee
selection box and the transform interaction state.  The `cursor`
string is written but never read by the logic (it only styles the
container) and is omitted; rendering and PNG export are presentation
adapters outside the embedded kernel. -/

/-- The in-progress stroke (`currentStroke`): the `Partial<Stroke>`
fields actually populated by `handleStart` and `handleMove`. -/
structure CurrentStroke where
  type : StrokeType
  points : List Point
  color : String
  width : ℚ
deriving DecidableEq, Repr

/-- The `type` tag of the transform `interactionState`. -/
inductive InteractionType where
  | idle
  | drag
  | resize
  | rotate
deriving DecidableEq, Repr

/-- The transform `interactionState` of the Blackboard component. -/
structure InteractionState where
  type : InteractionType
  handle : Option ResizeHandle
  startPos : Point
  initialStrokes : List Stroke
deriving DecidableEq, Repr

/-- JS `Set<string>` iteration is in insertion order, so the selection
set is embedded as a duplicate-free list of ids in insertion order. -/
abbrev SelectionIds := List String

/-- The logic-bearing state of the `Blackboard` component. -/
structure BoardState where
  history : List (List Stroke)
  historyIndex : ℕ
  currentStroke : Option CurrentStroke
  isDrawing : Bool
  selectedStrokeIds : SelectionIds
  selectionBox : Option SelBox
  interaction : InteractionState
deriving DecidableEq, Repr

/-- `strokes = history[historyIndex] || []` (an out-of-range index
yields `undefined`, hence the empty list; an in-range empty snapshot
is itself an array and is returned as is, which `getD` also does). -/
def strokesOf (b : BoardState) : List Stroke :=
  b.history.getD b.historyIndex []

/-- Lift `pushToHistory` to the component state. -/
def boardPush (b : BoardState) (snap : List Stroke) : BoardState :=
  let h := pushToHistory ⟨b.history, b.historyIndex⟩ snap
  { b with history := h.hist, historyIndex := h.index }

/-- Lift `updateCurrentHistory` to the component state. -/
def boardUpdateCurrent (b : BoardState) (snap : List Stroke) : BoardState :=
  let h := updateCurrentHistory ⟨b.history, b.historyIndex⟩ snap
  { b with history := h.hist, historyIndex := h.index }

/-- The `undo` command exposed through `useImperativeHandle`. -/
def boardUndo (b : BoardState) : BoardState :=
  let h := undoHistory ⟨b.history, b.historyIndex⟩
  { b with history := h.hist, historyIndex := h.index }

/-- The `redo` command exposed through `useImperativeHandle`. -/
def boardRedo (b : BoardState) : BoardState :=
  let h := redoHistory ⟨b.history, b.historyIndex⟩
  { b with history := h.hist, historyIndex := h.index }

/-- The `clear` command exposed through `useImperativeHandle`:
`clear()` of the history hook followed by emptying the selection. -/
def boardClear (b : BoardState) : BoardState :=
  let h := clearHistory ⟨b.history, b.historyIndex⟩
  { b with history := h.hist, historyIndex := h.index, selectedStrokeIds := [] }

/-- The `deleteSelected` command exposed through
`useImperativeHandle`. -/
def boardDeleteSelected (b : BoardState) : BoardState :=
  if b.selectedStrokeIds.length = 0 then b
  else
    let remaining := (strokesOf b).filter (fun s => !b.selectedStrokeIds.contains s.id)
    { boardPush b remaining with selectedStrokeIds := [] }

/-- The tools of the `['chalk', 'rect', 'circle', 'arrow']` drawing
branch of `handleStart`. -/
def isDrawTool : ToolType → Bool
  | .chalk => true
  | .rect => true
  | .circle => true
  | .arrow => true
  | _ => false

/-- `tool === 'chalk' ? 'freehand' : tool` for the drawing tools. -/
def drawStrokeType : ToolType → StrokeType
  | .chalk => .freehand
  | .rect => .rect
  | .circle => .circle
  | .arrow => .arrow
  | _ => .freehand

/-- `hitTestStroke(stroke, coords)` as called by the component, with
the default threshold `10` and the trigonometric values of the negated
rotation supplied by the `Trig` record. -/
def hitTestStrokeAt (T : Trig) (st : Stroke) (p : Point) : Bool :=
  hitTestStroke st (T.cos (-st.rotation)) (T.sin (-st.rotation)) p 10

/-- `handleStart` of the Blackboard component.  The three branches:
drawing tools, the select tool (handle hit, body hit, marquee start)
and the eraser.  `JSON.parse(JSON.stringify(strokes))` is a deep copy,
which in a value semantics is the list itself. -/
def handleStart (T : Trig) (tool : ToolType) (color : String) (coords : Point)
    (b : BoardState) : BoardState :=
  if isDrawTool tool then
    { b with
        isDrawing := true,
        currentStroke := some ⟨drawStrokeType tool, [coords], color, 4⟩,
        selectedStrokeIds := [] }
  else if tool = .select then
    let handleHit : Option ResizeHandle :=
      if b.selectedStrokeIds.length = 1 then
        match b.selectedStrokeIds.head? with
        | some id =>
          match (strokesOf b).find? (fun s => s.id = id) with
          | some st => hitTestHandles T st coords 1
          | none => none
        | none => none
      else none
    match handleHit with
    | some h =>
      { b with
          interaction :=
            ⟨if h = .rot then .rotate else .resize, some h, coords, strokesOf b⟩ }
    | none =>
      let clickedId : Option String :=
        match b.selectedStrokeIds.find?
            (fun id =>
              match (strokesOf b).find? (fun s => s.id = id) with
              | some st => hitTestStrokeAt T st coords
              | none => false) with
        | some id => some id
        | none => ((strokesOf b).reverse.find? (fun st => hitTestStrokeAt T st coords)).map Stroke.id
      match clickedId with
      | some cid =>
        { b with
            selectedStrokeIds :=
              if b.selectedStrokeIds.contains cid then b.selectedStrokeIds else [cid],
            interaction := ⟨.drag, none, coords, strokesOf b⟩ }
      | none =>
        { b with selectedStrokeIds := [], selectionBox := some ⟨coords, coords⟩ }
  else if tool = .eraser then
    let remaining := (strokesOf b).filter (fun s => !hitTestStrokeAt T s coords)
    let b1 := { b with isDrawing := true }
    if remaining.length ≠ (strokesOf b).length then boardPush b1 remaining else b1
  else b

/-- The map body of the drag branch of `handleMove`: add the frame
delta to the position of every selected stroke. -/
def dragMapBody (sel : SelectionIds) (dx dy : ℚ) (s : Stroke) : Stroke :=
  if sel.contains s.id then
    { s with position := ⟨s.position.x + dx, s.position.y + dy⟩ }
  else s

/-- The pre-clamp `newX / newY / newW / newH` computation of the resize
branch of `handleMove`: the if-chain over the active handle, starting
from the initial bounds.  A `rot` handle (never active in the resize
state) and an absent handle fall through every branch, leaving the
bounds unchanged, exactly as in the source. -/
def resizeBox (bounds : BoundingBox) (handle : Option ResizeHandle) (dx dy : ℚ) :
    BoundingBox :=
  match handle with
  | some .se => ⟨bounds.x, bounds.y, bounds.width + dx, bounds.height + dy⟩
  | some .sw => ⟨bounds.x + dx, bounds.y, bounds.width - dx, bounds.height + dy⟩
  | some .ne => ⟨bounds.x, bounds.y + dy, bounds.width + dx, bounds.height - dy⟩
  | some .nw => ⟨bounds.x + dx, bounds.y + dy, bounds.width - dx, bounds.height - dy⟩
  | some .n => ⟨bounds.x, bounds.y + dy, bounds.width, bounds.height - dy⟩
  | some .s => ⟨bounds.x, bounds.y, bounds.width, bounds.height + dy⟩
  | some .e => ⟨bounds.x, bounds.y, bounds.width + dx, bounds.height⟩
  | some .w => ⟨bounds.x + dx, bounds.y, bounds.width - dx, bounds.height⟩
  | some .rot => bounds
  | none => bounds

/-- The map body of the resize branch of `handleMove`: `newBox` holds
the clamped `newX / newY / newW / newH`, `bounds` the initial bounds
used for the arrow scale factors.  Strokes with a different id, and
freehand strokes (no branch of the inner if-chain), are returned
unchanged. -/
def resizeMapBody (initialStroke : Stroke) (id : String) (newBox bounds : BoundingBox)
    (s : Stroke) : Stroke :=
  if s.id = id then
    match s.type with
    | .rect =>
      { s with position := ⟨newBox.x, newBox.y⟩,
               points := [⟨0, 0⟩, ⟨newBox.width, newBox.height⟩] }
    | .circle =>
      { s with position := ⟨newBox.x, newBox.y⟩,
               points := [⟨0, 0⟩, ⟨newBox.width, newBox.height⟩] }
    | .arrow =>
      let scaleX := newBox.width / bounds.width
      let scaleY := newBox.height / bounds.height
      { s with position := ⟨newBox.x, newBox.y⟩,
               points := initialStroke.points.map (fun p => ⟨p.x * scaleX, p.y * scaleY⟩) }
    | .freehand => s
  else s

/-- The new stroke list computed by the rotate branch of `handleMove`:
the rotation delta between the start and current pointer angles about
the center of the initial stroke bounds (both via `atan2`), added to
the initial rotation of the stroke with the selected id. -/
def rotateUpdate (T : Trig) (coords startPos : Point) (initialStroke : Stroke)
    (strokes : List Stroke) (id : String) : List Stroke :=
  let bounds := getUnrotatedBounds initialStroke
  let center := getCenter bounds
  let startAngle := T.atan2 (startPos.y - center.y) (startPos.x - center.x)
  let currentAngle := T.atan2 (coords.y - center.y) (coords.x - center.x)
  let deltaRotation := currentAngle - startAngle
  strokes.map (fun s =>
    if s.id = id then { s with rotation := initialStroke.rotation + deltaRotation }
    else s)

/-- The new stroke list computed by the resize branch of `handleMove`:
the pointer positions rotated into the local frame of the initial
stroke, the handle-dependent box update (`resizeBox`), the 10-unit
clamp on width and height, and the per-stroke rewrite
(`resizeMapBody`). -/
def resizeUpdate (T : Trig) (coords startPos : Point) (handle : Option ResizeHandle)
    (initialStroke : Stroke) (strokes : List Stroke) (id : String) : List Stroke :=
  let bounds := getUnrotatedBounds initialStroke
  let center := getCenter bounds
  let localMouse := rotatePointCS coords center
    (T.cos (-initialStroke.rotation)) (T.sin (-initialStroke.rotation))
  let localStart := rotatePointCS startPos center
    (T.cos (-initialStroke.rotation)) (T.sin (-initialStroke.rotation))
  let dx := localMouse.x - localStart.x
  let dy := localMouse.y - localStart.y
  let pre := resizeBox bounds handle dx dy
  let newW := if pre.width < 10 then 10 else pre.width
  let newH := if pre.height < 10 then 10 else pre.height
  strokes.map (resizeMapBody initialStroke id ⟨pre.x, pre.y, newW, newH⟩ bounds)

/-- `handleMove` of the Blackboard component.  The idle-hover block
only assigns the advisory cursor string and is omitted (see
`BoardState`).  The drawing branch, the select-tool transform chain
(drag, rotate, resize, marquee update) and the eraser branch follow
the source if-chain exactly; the rotate and resize arm bodies are the
named `rotateUpdate` and `resizeUpdate` above.  The shape branch
indexes `prev.points[0]`, which always exists while drawing (the
gesture starts with one point); `headD` supplies the unreachable
default. -/
def handleMove (T : Trig) (tool : ToolType) (coords : Point) (b : BoardState) : BoardState :=
  match b.isDrawing, b.currentStroke with
  | true, some cs =>
    if cs.type = .freehand then
      { b with currentStroke := some { cs with points := cs.points ++ [coords] } }
    else
      { b with currentStroke := some { cs with points := [cs.points.headD ⟨0, 0⟩, coords] } }
  | _, _ =>
    if tool = .select then
      let startPos := b.interaction.startPos
      let initialStrokes := b.interaction.initialStrokes
      if b.interaction.type = .drag then
        let dx := coords.x - startPos.x
        let dy := coords.y - startPos.y
        let newStrokes := (strokesOf b).map (dragMapBody b.selectedStrokeIds dx dy)
        { boardUpdateCurrent b newStrokes with
            interaction := { b.interaction with startPos := coords } }
      else if b.interaction.type = .rotate ∧ b.selectedStrokeIds.length = 1 then
        match b.selectedStrokeIds.head? with
        | none => b
        | some id =>
          match initialStrokes.find? (fun s => s.id = id) with
          | none => b
          | some initialStroke =>
            boardUpdateCurrent b (rotateUpdate T coords startPos initialStroke (strokesOf b) id)
      else if b.interaction.type = .resize ∧ b.selectedStrokeIds.length = 1 then
        match b.selectedStrokeIds.head? with
        | none => b
        | some id =>
          match initialStrokes.find? (fun s => s.id = id) with
          | none => b
          | some initialStroke =>
            boardUpdateCurrent b
              (resizeUpdate T coords startPos b.interaction.handle initialStroke
                (strokesOf b) id)
      else
        match b.selectionBox with
        | some sb => { b with selectionBox := some { sb with current := coords } }
        | none => b
    else if tool = .eraser ∧ b.isDrawing then
      let remaining := (strokesOf b).filter (fun s => !hitTestStrokeAt T s coords)
      if remaining.length ≠ (strokesOf b).length then boardUpdateCurrent b remaining else b
    else b

/-- `handleEnd` of the Blackboard component.  The fresh id that the
source generates from `Date.now()` and `Math.random()` is supplied as
the `freshId` input.  The `currentStroke.color || color` and
`currentStroke.width || 4` fallbacks fire on the JS falsy values, the
empty string and zero.  In the select branch the guard
`interactionState.type !== 'drag' || interactionState.startPos` is
always true since `startPos` is always an object (truthy), so the
commit push is unconditional there. -/
def handleEnd (T : Trig) (tool : ToolType) (color : String) (freshId : String)
    (b : BoardState) : BoardState :=
  match b.isDrawing, b.currentStroke with
  | true, some cs =>
    let pts := cs.points
    let b1 :=
      if pts.length > 1 ∨ (cs.type = .freehand ∧ pts.length > 0) then
        let n := normalizePoints pts
        let newStroke : Stroke :=
          ⟨freshId, cs.type, n.points,
            if cs.color = "" then color else cs.color,
            if cs.width = 0 then 4 else cs.width,
            n.offset, 0⟩
        boardPush b (strokesOf b ++ [newStroke])
      else b
    { b1 with currentStroke := none, isDrawing := false }
  | _, _ =>
    if tool = .select then
      if b.interaction.type ≠ .idle then
        { boardPush b (strokesOf b) with interaction := ⟨.idle, none, ⟨0, 0⟩, []⟩ }
      else
        match b.selectionBox with
        | some sb =>
          let bounds := getSelectionBoxBounds sb
          let newSelection := ((strokesOf b).filter
            (fun s => checkIntersection50Percent bounds (getUnrotatedBounds s))).map Stroke.id
          { b with selectedStrokeIds := newSelection, selectionBox := none }
        | none => b
    else if tool = .eraser then
      let b1 := if b.isDrawing then boardPush b (strokesOf b) else b
      { b1 with isDrawing := false }
    else b

/-! ## A concrete gesture trace

Used by the counterexamples below.  Every stroke involved has rotation
0, whose cosine is 1 and sine is 0; the `atan2` slot is never
consulted, so the following trigonometry record realises the values
the source would compute. -/

def T0 : Trig := ⟨fun _ => 1, fun _ => 0, fun _ _ => 0⟩

/-- The initial component state: `useHistory` starts from `[[]]` at
index 0; nothing is being drawn, selected or transformed. -/
def initialBoard : BoardState :=
  ⟨[[]], 0, none, false, [], none, ⟨.idle, none, ⟨0, 0⟩, []⟩⟩

/-- The freehand stroke committed by the drawing part of the trace. -/
def strokeA : Stroke := ⟨"a", .freehand, [⟨0, 0⟩, ⟨10, 0⟩], "#fff", 4, ⟨0, 0⟩, 0⟩

/-- `strokeA` after a drag by `(5, 5)`. -/
def strokeA5 : Stroke := ⟨"a", .freehand, [⟨0, 0⟩, ⟨10, 0⟩], "#fff", 4, ⟨5, 5⟩, 0⟩

def drawingBoard1 : BoardState :=
  ⟨[[]], 0, some ⟨.freehand, [⟨0, 0⟩], "#fff", 4⟩, true, [], none, ⟨.idle, none, ⟨0, 0⟩, []⟩⟩

def drawingBoard2 : BoardState :=
  ⟨[[]], 0, some ⟨.freehand, [⟨0, 0⟩, ⟨10, 0⟩], "#fff", 4⟩, true, [], none,
    ⟨.idle, none, ⟨0, 0⟩, []⟩⟩

/-- The committed document state after drawing `strokeA`. -/
def drawnBoard : BoardState :=
  ⟨[[], [strokeA]], 1, none, false, [], none, ⟨.idle, none, ⟨0, 0⟩, []⟩⟩

/-- Pointer-down with the select tool on the stroke body: the stroke
is selected and a drag gesture begins. -/
def dragStartBoard : BoardState :=
  ⟨[[], [strokeA]], 1, none, false, ["a"], none, ⟨.drag, none, ⟨0, 0⟩, [strokeA]⟩⟩

/-- After one drag move to `(5, 5)`: the preview has overwritten the
committed snapshot at index 1 in place. -/
def dragMovedBoard : BoardState :=
  ⟨[[], [strokeA5]], 1, none, false, ["a"], none, ⟨.drag, none, ⟨5, 5⟩, [strokeA]⟩⟩

/-- After pointer-up of the drag gesture: the final state was pushed,
duplicating the overwritten preview slot. -/
def dragEndBoard : BoardState :=
  ⟨[[], [strokeA5], [strokeA5]], 2, none, false, ["a"], none, ⟨.idle, none, ⟨0, 0⟩, []⟩⟩

/-- After pointer-up with no intervening move (a plain click on the
stroke): the unchanged snapshot is pushed again. -/
def clickEndBoard : BoardState :=
  ⟨[[], [strokeA], [strokeA]], 2, none, false, ["a"], none, ⟨.idle, none, ⟨0, 0⟩, []⟩⟩

/-- A committed freehand stroke with bounds `(0, 0, 4, 4)`, used to
exercise the resize branch on a freehand stroke. -/
def strokeF : Stroke := ⟨"f", .freehand, [⟨0, 0⟩, ⟨4, 0⟩, ⟨4, 4⟩], "#fff", 4, ⟨0, 0⟩, 0⟩

/-- A resize gesture in progress on the selected `strokeF`: the `se`
handle is active and the gesture started at its corner `(4, 4)`. -/
def resizeBoard : BoardState :=
  ⟨[[strokeF]], 0, none, false, ["f"], none, ⟨.resize, some .se, ⟨4, 4⟩, [strokeF]⟩⟩

/-- A committed rect stroke with bounds `(0, 0, 4, 4)`. -/
def strokeR : Stroke := ⟨"r", .rect, [⟨0, 0⟩, ⟨4, 4⟩], "#fff", 4, ⟨0, 0⟩, 0⟩

/-! ## Helper lemmas -/

lemma map_shift_cancel (l : List Point) (a b : ℚ) :
    (l.map (fun q => (⟨q.x - a, q.y - b⟩ : Point))).map
      (fun q => (⟨q.x + a, q.y + b⟩ : Point)) = l := by
  induction l with
  | nil => rfl
  | cons p t ih =>
    simp only [List.map_cons, ih, List.cons.injEq, and_true]
    simp [sub_add_cancel]

lemma pushToHistory_hist_small (st : HistoryState) (snap : List Stroke)
    (h : (st.hist.take (st.index + 1) ++ [snap]).length ≤ 50) :
    (pushToHistory st snap).hist = st.hist.take (st.index + 1) ++ [snap] := by
  simp only [pushToHistory]
  rw [if_neg (by omega)]

lemma pushToHistory_hist_big (st : HistoryState) (snap : List Stroke)
    (h : (st.hist.take (st.index + 1) ++ [snap]).length > 50) :
    (pushToHistory st snap).hist = (st.hist.take (st.index + 1) ++ [snap]).tail := by
  simp only [pushToHistory]
  rw [if_pos h]

lemma pushToHistory_index_eq (st : HistoryState) (snap : List Stroke) :
    (pushToHistory st snap).index = min (st.index + 1) 49 := by
  simp only [pushToHistory]
  split <;> omega

lemma pushToHistory_core (st : HistoryState) (snap : List Stroke)
    (h1 : st.index < st.hist.length) (h2 : st.hist.length ≤ 50) :
    (pushToHistory st snap).hist.length = min (st.index + 2) 50
    ∧ (pushToHistory st snap).index = min (st.index + 1) 49
    ∧ (pushToHistory st snap).index + 1 = (pushToHistory st snap).hist.length
    ∧ (pushToHistory st snap).hist.getLast? = some snap
    ∧ (st.index + 2 ≤ 50 →
        (pushToHistory st snap).hist = st.hist.take (st.index + 1) ++ [snap])
    ∧ (st.index + 2 > 50 →
        (pushToHistory st snap).hist = (st.hist.take (st.index + 1) ++ [snap]).tail) := by
  have hlenTake : (st.hist.take (st.index + 1)).length = st.index + 1 := by
    rw [List.length_take]
    omega
  have hlenSlice : (st.hist.take (st.index + 1) ++ [snap]).length = st.index + 2 := by
    rw [List.length_append, hlenTake]
    rfl
  have hidx := pushToHistory_index_eq st snap
  by_cases hc : st.index + 2 ≤ 50
  · have hhist := pushToHistory_hist_small st snap (by omega)
    rw [hhist, hidx, hlenSlice]
    exact ⟨by omega, rfl, by omega, List.getLast?_concat _,
      fun _ => rfl, fun h => absurd h (by omega)⟩
  · obtain ⟨a, t, hat⟩ : ∃ a t, st.hist.take (st.index + 1) = a :: t := by
      cases hq : st.hist.take (st.index + 1) with
      | nil => rw [hq] at hlenTake; simp at hlenTake
      | cons a t => exact ⟨a, t, rfl⟩
    have hhist := pushToHistory_hist_big st snap (by omega)
    have htail : (st.hist.take (st.index + 1) ++ [snap]).tail = t ++ [snap] := by
      rw [hat]; rfl
    have htlen : t.length = st.index := by
      have h' := hlenTake
      rw [hat] at h'
      simpa using h'
    rw [hhist, hidx, htail]
    have hlen' : (t ++ [snap]).length = st.index + 1 := by
      rw [List.length_append, htlen]; rfl
    rw [hlen']
    exact ⟨by omega, rfl, by omega, List.getLast?_concat _,
      fun h => absurd h (by omega), fun _ => rfl⟩

lemma foldl_push_tail (snaps : List (List Stroke)) :
    ∀ st : HistoryState, st.index + 1 = st.hist.length → st.hist.length ≤ 50 →
    (snaps.foldl pushToHistory st).hist.length = min (st.hist.length + snaps.length) 50
    ∧ (snaps.foldl pushToHistory st).index + 1 = (snaps.foldl pushToHistory st).hist.length := by
  induction snaps with
  | nil =>
    intro st h1 h2
    simp only [List.foldl_nil, List.length_nil, Nat.add_zero]
    exact ⟨by omega, h1⟩
  | cons s rest ih =>
    intro st h1 h2
    have hlt : st.index < st.hist.length := by omega
    obtain ⟨hL, hI, hT, -, -, -⟩ := pushToHistory_core st s hlt h2
    have h1' : (pushToHistory st s).index + 1 = (pushToHistory st s).hist.length := hT
    have h2' : (pushToHistory st s).hist.length ≤ 50 := by omega
    obtain ⟨ihL, ihT⟩ := ih (pushToHistory st s) h1' h2'
    constructor
    · rw [List.foldl_cons, ihL, hL]
      simp only [List.length_cons]
      omega
    · rw [List.foldl_cons]
      exact ihT

/-! ## Claims -/

/-- C3: For every finite list of points `P`, shifting each point of
`normalizePoints(P).points` by `normalizePoints(P).offset` (adding
`offset.x` to every `x` and `offset.y` to every `y`) reproduces `P`
exactly, element for element. -/
theorem C3_normalizePoints_roundtrip (ps : List Point) :
    (normalizePoints ps).points.map
      (fun q => (⟨q.x + (normalizePoints ps).offset.x,
                  q.y + (normalizePoints ps).offset.y⟩ : Point)) = ps := by
  cases ps with
  | nil => rfl
  | cons p t =>
    simp only [normalizePoints]
    exact map_shift_cancel (p :: t) _ _

/-- C2: For the history `push` operation: from a one-snapshot history
at index 0, pushing 60 snapshots leaves length exactly 50 and index
49; in general (for a well-formed history: index in range, length at
most 50) each push drops the entries beyond the current index, appends
the new snapshot, evicts the oldest entry when the length exceeds 50,
and advances the index to the new tail clamped to 49. -/
theorem C2_pushToHistory_spec :
    (∀ (st : HistoryState) (snap : List Stroke),
       st.index < st.hist.length → st.hist.length ≤ 50 →
       ((pushToHistory st snap).hist.length = min (st.index + 2) 50
        ∧ (pushToHistory st snap).index = min (st.index + 1) 49
        ∧ (pushToHistory st snap).index + 1 = (pushToHistory st snap).hist.length
        ∧ (pushToHistory st snap).hist.getLast? = some snap
        ∧ (st.index + 2 ≤ 50 →
            (pushToHistory st snap).hist = st.hist.take (st.index + 1) ++ [snap])
        ∧ (st.index + 2 > 50 →
            (pushToHistory st snap).hist = (st.hist.take (st.index + 1) ++ [snap]).tail)))
    ∧ (∀ snaps : List (List Stroke), snaps.length = 60 →
        ((snaps.foldl pushToHistory ⟨[[]], 0⟩).hist.length = 50
         ∧ (snaps.foldl pushToHistory ⟨[[]], 0⟩).index = 49)) := by
  constructor
  · intro st snap h1 h2
    exact pushToHistory_core st snap h1 h2
  · intro snaps hlen
    obtain ⟨hL, hT⟩ := foldl_push_tail snaps ⟨[[]], 0⟩ (by rfl) (by norm_num)
    rw [hlen] at hL
    norm_num at hL
    exact ⟨hL, by omega⟩

/-- Witness for C2: pushing 60 empty snapshots from the one-snapshot
history leaves 50 snapshots and index 49. -/
theorem C2_witness :
    ((List.replicate 60 ([] : List Stroke)).foldl pushToHistory ⟨[[]], 0⟩).hist.length = 50
    ∧ ((List.replicate 60 ([] : List Stroke)).foldl pushToHistory ⟨[[]], 0⟩).index = 49 :=
  C2_pushToHistory_spec.2 (List.replicate 60 []) (List.length_replicate 60 [])

/-- C6: `checkIntersection50Percent(selectionBox, strokeBox)` returns
true iff the axis-aligned overlap area divided by the `strokeBox` area
is at least one half, returns false whenever `strokeBox` has zero
area, returns true for a selection box fully containing a stroke with
positive extent (ratio one), and returns false for a concrete
selection box covering exactly forty percent of the stroke area. -/
theorem C6_checkIntersection_spec :
    (∀ sel box : BoundingBox,
       (checkIntersection50Percent sel box = true ↔
         (box.width * box.height ≠ 0
          ∧ xOverlap sel box * yOverlap sel box / (box.width * box.height) ≥ 1 / 2)))
    ∧ (∀ sel box : BoundingBox, box.width * box.height = 0 →
        checkIntersection50Percent sel box = false)
    ∧ (∀ sel box : BoundingBox, 0 < box.width → 0 < box.height →
        sel.x ≤ box.x → box.x + box.width ≤ sel.x + sel.width →
        sel.y ≤ box.y → box.y + box.height ≤ sel.y + sel.height →
        checkIntersection50Percent sel box = true)
    ∧ checkIntersection50Percent ⟨0, 0, 4, 10⟩ ⟨0, 0, 10, 10⟩ = false := by
  have hiff : ∀ sel box : BoundingBox,
      (checkIntersection50Percent sel box = true ↔
        (box.width * box.height ≠ 0
         ∧ xOverlap sel box * yOverlap sel box / (box.width * box.height) ≥ 1 / 2)) := by
    intro sel box
    by_cases h0 : box.width * box.height = 0
    · simp [checkIntersection50Percent, h0]
    · simp [checkIntersection50Percent, h0]
  refine ⟨hiff, ?_, ?_, by norm_num [checkIntersection50Percent, xOverlap, yOverlap]⟩
  · intro sel box h0
    simp [checkIntersection50Percent, h0]
  · intro sel box hw hh hx1 hx2 hy1 hy2
    have hxov : xOverlap sel box = box.width := by
      unfold xOverlap
      rw [min_eq_right hx2, max_eq_right hx1]
      rw [max_eq_right]
      · ring
      · linarith
    have hyov : yOverlap sel box = box.height := by
      unfold yOverlap
      rw [min_eq_right hy2, max_eq_right hy1]
      rw [max_eq_right]
      · ring
      · linarith
    rw [hiff sel box, hxov, hyov]
    have harea : box.width * box.height ≠ 0 := by positivity
    refine ⟨harea, ?_⟩
    rw [div_self harea]
    norm_num

/-- Witness for C6: a selection box fully containing a stroke with
positive extent is selected. -/
theorem C6_witness :
    checkIntersection50Percent ⟨0, 0, 20, 20⟩ ⟨5, 5, 10, 10⟩ = true :=
  C6_checkIntersection_spec.2.2.1 ⟨0, 0, 20, 20⟩ ⟨5, 5, 10, 10⟩
    (by norm_num) (by norm_num) (by norm_num) (by norm_num) (by norm_num) (by norm_num)

lemma trace_draw1 :
    handleStart T0 .chalk "#fff" ⟨0, 0⟩ initialBoard = drawingBoard1 := by
  rfl

lemma trace_draw2 :
    handleMove T0 .chalk ⟨10, 0⟩ drawingBoard1 = drawingBoard2 := by
  rfl

set_option maxHeartbeats 1000000 in
lemma trace_draw3 :
    handleEnd T0 .chalk "#fff" "a" drawingBoard2 = drawnBoard := by
  norm_num [handleEnd, normalizePoints, minFold, maxFold, boardPush, pushToHistory,
    strokesOf, drawingBoard2, drawnBoard, strokeA]

set_option maxHeartbeats 1000000 in
lemma trace_select4 :
    handleStart T0 .select "#fff" ⟨0, 0⟩ drawnBoard = dragStartBoard := by
  norm_num [handleStart, isDrawTool, strokesOf, strokeA, hitTestStrokeAt, hitTestStroke, T0,
    getUnrotatedBounds, getCenter, rotatePointCS, minFold, maxFold, distSqToSegment,
    drawnBoard, dragStartBoard]

set_option maxHeartbeats 1000000 in
lemma trace_drag5 :
    handleMove T0 .select ⟨5, 5⟩ dragStartBoard = dragMovedBoard := by
  norm_num [handleMove, dragMapBody, boardUpdateCurrent, updateCurrentHistory, strokesOf,
    dragStartBoard, dragMovedBoard, strokeA, strokeA5]

set_option maxHeartbeats 1000000 in
lemma trace_drag6 :
    handleEnd T0 .select "#fff" "x" dragMovedBoard = dragEndBoard := by
  norm_num [handleEnd, boardPush, pushToHistory, strokesOf, dragMovedBoard, dragEndBoard]
  decide

set_option maxHeartbeats 1000000 in
lemma trace_click5 :
    handleEnd T0 .select "#fff" "x" dragStartBoard = clickEndBoard := by
  norm_num [handleEnd, boardPush, pushToHistory, strokesOf, dragStartBoard, clickEndBoard]
  decide

/-! ## Claims about gestures and history commits -/

/-- The defining equation of a drag-state pointer move: every selected
stroke gains the frame delta on `position`, the current history slot
is replaced in place, and `startPos` resets to the current pointer. -/
lemma handleMove_drag (T : Trig) (coords : Point) (b : BoardState)
    (hD : b.isDrawing = false) (hT : b.interaction.type = .drag) :
    handleMove T .select coords b =
      { b with
          history := b.history.set b.historyIndex
            ((strokesOf b).map (dragMapBody b.selectedStrokeIds
              (coords.x - b.interaction.startPos.x) (coords.y - b.interaction.startPos.y))),
          interaction := { b.interaction with startPos := coords } } := by
  rcases b with ⟨hist, idx, cur, isD, sel, sbox, ⟨itype, ihandle, istart, istrokes⟩⟩
  obtain rfl : isD = false := hD
  obtain rfl : itype = .drag := hT
  rfl

/-- The defining equation of a select-tool pointer-up in a non-idle
transform state: the current strokes are pushed and the transform
returns to idle. -/
lemma handleEnd_select_commit (T : Trig) (color freshId : String) (b : BoardState)
    (hD : b.isDrawing = false) (hT : b.interaction.type ≠ .idle) :
    handleEnd T .select color freshId b =
      { boardPush b (strokesOf b) with interaction := ⟨.idle, none, ⟨0, 0⟩, []⟩ } := by
  rcases b with ⟨hist, idx, cur, isD, sel, sbox, ⟨itype, ihandle, istart, istrokes⟩⟩
  obtain rfl : isD = false := hD
  cases itype with
  | idle => exact absurd rfl hT
  | drag => rfl
  | resize => rfl
  | rotate => rfl

/-- A pointer move in the resize or rotate state updates the current
history slot in place with some new stroke list, provided the gesture
state is as `handleStart` creates it: exactly one selected id whose
stroke is found among the captured initial strokes. -/
lemma handleMove_transform_update (T : Trig) (coords : Point) (b : BoardState)
    (hD : b.isDrawing = false)
    (hT : b.interaction.type = .resize ∨ b.interaction.type = .rotate)
    (hLen : b.selectedStrokeIds.length = 1)
    (hFind : ∀ id, b.selectedStrokeIds.head? = some id →
      (b.interaction.initialStrokes.find? (fun s => s.id = id)).isSome = true) :
    ∃ M, handleMove T .select coords b = boardUpdateCurrent b M := by
  rcases b with ⟨hist, idx, cur, isD, sel, sbox, ⟨itype, ihandle, istart, istrokes⟩⟩
  obtain rfl : isD = false := hD
  obtain ⟨id, t, rfl⟩ : ∃ id t, sel = id :: t := by
    cases sel with
    | nil => simp at hLen
    | cons a t => exact ⟨a, t, rfl⟩
  obtain rfl : t = [] := by
    simpa using hLen
  obtain ⟨initSt, hFindEq⟩ := Option.isSome_iff_exists.mp (hFind id rfl)
  rcases hT with hT | hT
  · obtain rfl : itype = .resize := hT
    refine ⟨resizeUpdate T coords istart ihandle initSt
      (strokesOf ⟨hist, idx, cur, false, [id], sbox, ⟨.resize, ihandle, istart, istrokes⟩⟩)
      id, ?_⟩
    show (match istrokes.find? (fun s => s.id = id) with
        | none => (⟨hist, idx, cur, false, [id], sbox,
            ⟨.resize, ihandle, istart, istrokes⟩⟩ : BoardState)
        | some initialStroke =>
          boardUpdateCurrent
            ⟨hist, idx, cur, false, [id], sbox, ⟨.resize, ihandle, istart, istrokes⟩⟩
            (resizeUpdate T coords istart ihandle initialStroke
              (strokesOf ⟨hist, idx, cur, false, [id], sbox,
                ⟨.resize, ihandle, istart, istrokes⟩⟩) id))
      = _
    rw [hFindEq]
  · obtain rfl : itype = .rotate := hT
    refine ⟨rotateUpdate T coords istart initSt
      (strokesOf ⟨hist, idx, cur, false, [id], sbox, ⟨.rotate, ihandle, istart, istrokes⟩⟩)
      id, ?_⟩
    show (match istrokes.find? (fun s => s.id = id) with
        | none => (⟨hist, idx, cur, false, [id], sbox,
            ⟨.rotate, ihandle, istart, istrokes⟩⟩ : BoardState)
        | some initialStroke =>
          boardUpdateCurrent
            ⟨hist, idx, cur, false, [id], sbox, ⟨.rotate, ihandle, istart, istrokes⟩⟩
            (rotateUpdate T coords istart initialStroke
              (strokesOf ⟨hist, idx, cur, false, [id], sbox,
                ⟨.rotate, ihandle, istart, istrokes⟩⟩) id))
      = _
    rw [hFindEq]

/-- C1, corrected: for every transform gesture — drag, resize or
rotate — performed from a committed state: each intra-gesture
pointer-move replaces the snapshot at the current history index in
place (overwriting the pre-gesture snapshot), pointer-up pushes
exactly one new durable entry whose content equals the final preview,
and a single undo immediately after the commit yields the final
gesture state again — not, in general, the pre-gesture state, which
the preview overwrote (see the counterexample).  The resize/rotate
side hypotheses mirror how `handleStart` enters those states: exactly
one selected stroke whose id occurs in the captured initial strokes;
for a drag the in-place snapshot is additionally identified as the
selected strokes shifted by the pointer delta. -/
theorem C1_transform_gesture_amended (T : Trig) (color freshId : String) (coords : Point)
    (b : BoardState)
    (hD : b.isDrawing = false)
    (hGesture : b.interaction.type = .drag
      ∨ ((b.interaction.type = .resize ∨ b.interaction.type = .rotate)
          ∧ b.selectedStrokeIds.length = 1
          ∧ ∀ id, b.selectedStrokeIds.head? = some id →
              (b.interaction.initialStrokes.find? (fun s => s.id = id)).isSome = true))
    (hIdx : b.historyIndex < b.history.length) (hCap : b.historyIndex + 2 ≤ 50) :
    let b1 := handleMove T .select coords b
    let moved := strokesOf b1
    let b2 := handleEnd T .select color freshId b1
    b1.history = b.history.set b.historyIndex moved
    ∧ b1.historyIndex = b.historyIndex
    ∧ b2.history = b1.history.take (b.historyIndex + 1) ++ [moved]
    ∧ b2.history.length = b.historyIndex + 2
    ∧ b2.historyIndex = b.historyIndex + 1
    ∧ b2.history.getLast? = some moved
    ∧ strokesOf (boardUndo b2) = moved
    ∧ (b.interaction.type = .drag →
        moved = (strokesOf b).map (dragMapBody b.selectedStrokeIds
          (coords.x - b.interaction.startPos.x) (coords.y - b.interaction.startPos.y))) := by
  intro b1 moved b2
  have hmain : b1.history = b.history.set b.historyIndex moved
      ∧ b1.historyIndex = b.historyIndex
      ∧ b1.isDrawing = false
      ∧ b1.interaction.type ≠ .idle
      ∧ (b.interaction.type = .drag →
          moved = (strokesOf b).map (dragMapBody b.selectedStrokeIds
            (coords.x - b.interaction.startPos.x) (coords.y - b.interaction.startPos.y))) := by
    rcases hGesture with hT | ⟨hT, hLen, hFind⟩
    · have h1 := handleMove_drag T coords b hD hT
      have hhist1 : (handleMove T .select coords b).history
          = b.history.set b.historyIndex ((strokesOf b).map (dragMapBody b.selectedStrokeIds
              (coords.x - b.interaction.startPos.x) (coords.y - b.interaction.startPos.y))) := by
        rw [h1]
      have hidx1 : (handleMove T .select coords b).historyIndex = b.historyIndex := by
        rw [h1]
      have hmoved : moved = (strokesOf b).map (dragMapBody b.selectedStrokeIds
          (coords.x - b.interaction.startPos.x) (coords.y - b.interaction.startPos.y)) := by
        show strokesOf (handleMove T .select coords b) = _
        unfold strokesOf
        rw [hhist1, hidx1]
        simp [strokesOf, List.getD, List.getElem?_set_self, hIdx]
      refine ⟨?_, ?_, ?_, ?_, fun _ => hmoved⟩
      · rw [hmoved]
        show (handleMove T .select coords b).history = _
        rw [h1]
      · show (handleMove T .select coords b).historyIndex = _
        rw [h1]
      · show (handleMove T .select coords b).isDrawing = false
        rw [h1]
        exact hD
      · show (handleMove T .select coords b).interaction.type ≠ .idle
        rw [h1]
        show b.interaction.type ≠ .idle
        rw [hT]
        decide
    · obtain ⟨M, hM⟩ := handleMove_transform_update T coords b hD hT hLen hFind
      have hmoved : moved = M := by
        show strokesOf (handleMove T .select coords b) = M
        rw [hM]
        show (b.history.set b.historyIndex M).getD b.historyIndex [] = M
        simp [List.getD, List.getElem?_set_self, hIdx]
      refine ⟨?_, ?_, ?_, ?_, ?_⟩
      · rw [hmoved]
        show (handleMove T .select coords b).history = _
        rw [hM]
        rfl
      · show (handleMove T .select coords b).historyIndex = _
        rw [hM]
        rfl
      · show (handleMove T .select coords b).isDrawing = false
        rw [hM]
        exact hD
      · show (handleMove T .select coords b).interaction.type ≠ .idle
        rw [hM]
        show b.interaction.type ≠ .idle
        rcases hT with h | h <;> rw [h] <;> decide
      · intro hdrag
        exfalso
        rcases hT with h | h <;> rw [hdrag] at h <;> cases h
  obtain ⟨hb1hist, hb1idx, hb1D, hb1T, hdragEq⟩ := hmain
  have hb1len : b1.history.length = b.history.length := by
    rw [hb1hist, List.length_set]
  have h2 : b2 = { boardPush b1 (strokesOf b1) with interaction := ⟨.idle, none, ⟨0, 0⟩, []⟩ } :=
    handleEnd_select_commit T color freshId b1 hb1D hb1T
  have hslice : (b1.history.take (b1.historyIndex + 1) ++ [strokesOf b1]).length
      = b.historyIndex + 2 := by
    rw [List.length_append, List.length_take]
    simp [hb1idx, hb1len]
    omega
  have hb2hist : b2.history = b1.history.take (b1.historyIndex + 1) ++ [strokesOf b1] := by
    rw [h2]
    show (pushToHistory ⟨b1.history, b1.historyIndex⟩ (strokesOf b1)).hist = _
    apply pushToHistory_hist_small
    show (b1.history.take (b1.historyIndex + 1) ++ [strokesOf b1]).length ≤ 50
    omega
  have hb2idx : b2.historyIndex = b.historyIndex + 1 := by
    rw [h2]
    show (pushToHistory ⟨b1.history, b1.historyIndex⟩ (strokesOf b1)).index = _
    rw [pushToHistory_index_eq]
    simp [hb1idx]
    omega
  refine ⟨hb1hist, hb1idx, ?_, ?_, hb2idx, ?_, ?_, hdragEq⟩
  · rw [hb2hist, hb1idx]
  · rw [hb2hist, hslice]
  · rw [hb2hist]
    exact List.getLast?_concat _
  · have hundo : (boardUndo b2).historyIndex = b.historyIndex := by
      unfold boardUndo undoHistory
      rw [hb2idx]
      simp
    have hhist' : (boardUndo b2).history = b2.history := by
      unfold boardUndo undoHistory
      split <;> rfl
    show strokesOf (boardUndo b2) = moved
    unfold strokesOf
    rw [hundo, hhist', hb2hist, hb1idx, hb1hist]
    have hlt2 : b.historyIndex <
        ((b.history.set b.historyIndex moved).take (b.historyIndex + 1)).length := by
      rw [List.length_take, List.length_set]
      omega
    simp [List.getD, List.getElem?_append, hlt2, List.getElem?_take, Nat.lt_succ_self,
      List.getElem?_set_self, hIdx]

/-- Witness for C1 (corrected): the amended theorem instantiated at
two concrete gestures of the traces — a resize move on the selected
freehand stroke of `resizeBoard` (in-place slot replacement, and undo
after the commit returning the final state) and the drag move of
`dragStartBoard` (undo after the commit returning the final state). -/
theorem C1_witness :
    ((handleMove T0 .select ⟨1, 4⟩ resizeBoard).history
        = resizeBoard.history.set resizeBoard.historyIndex
            (strokesOf (handleMove T0 .select ⟨1, 4⟩ resizeBoard))
     ∧ strokesOf (boardUndo (handleEnd T0 .select "#fff" "x"
          (handleMove T0 .select ⟨1, 4⟩ resizeBoard)))
        = strokesOf (handleMove T0 .select ⟨1, 4⟩ resizeBoard))
    ∧ strokesOf (boardUndo (handleEnd T0 .select "#fff" "x"
          (handleMove T0 .select ⟨5, 5⟩ dragStartBoard)))
        = strokesOf (handleMove T0 .select ⟨5, 5⟩ dragStartBoard) :=
  ⟨⟨(C1_transform_gesture_amended T0 "#fff" "x" ⟨1, 4⟩ resizeBoard rfl
      (Or.inr ⟨Or.inl rfl, rfl, fun id h => by
        obtain rfl : "f" = id := Option.some.inj h
        rfl⟩)
      (by decide) (by decide)).1,
    (C1_transform_gesture_amended T0 "#fff" "x" ⟨1, 4⟩ resizeBoard rfl
      (Or.inr ⟨Or.inl rfl, rfl, fun id h => by
        obtain rfl : "f" = id := Option.some.inj h
        rfl⟩)
      (by decide) (by decide)).2.2.2.2.2.2.1⟩,
   (C1_transform_gesture_amended T0 "#fff" "x" ⟨5, 5⟩ dragStartBoard rfl
      (Or.inl rfl) (by decide) (by decide)).2.2.2.2.2.2.1⟩

/-- Counterexample to C1 as stated: for the drag gesture of the trace
(one move by `(5, 5)` from the committed state holding `strokeA`), a
single undo immediately after the commit yields the moved stroke, not
the pre-gesture stroke: the pre-gesture snapshot was overwritten by
the in-place preview. -/
theorem C1_counterexample :
    strokesOf (boardUndo (handleEnd T0 .select "#fff" "x" (handleMove T0 .select ⟨5, 5⟩
        (handleStart T0 .select "#fff" ⟨0, 0⟩ (handleEnd T0 .chalk "#fff" "a"
          (handleMove T0 .chalk ⟨10, 0⟩ (handleStart T0 .chalk "#fff" ⟨0, 0⟩ initialBoard)))))))
      = [strokeA5]
    ∧ strokesOf (handleStart T0 .select "#fff" ⟨0, 0⟩ (handleEnd T0 .chalk "#fff" "a"
        (handleMove T0 .chalk ⟨10, 0⟩ (handleStart T0 .chalk "#fff" ⟨0, 0⟩ initialBoard))))
      = [strokeA]
    ∧ strokeA5 ≠ strokeA := by
  rw [trace_draw1, trace_draw2, trace_draw3, trace_select4, trace_drag5, trace_drag6]
  refine ⟨rfl, rfl, ?_⟩
  simp only [strokeA, strokeA5, ne_eq, Stroke.mk.injEq, Point.mk.injEq]
  norm_num

/-- C5, corrected: the selection set is cleared whenever a drawing
tool starts a new stroke and whenever the document is cleared.  (The
subset part of the original claim fails: undo and redo change the
current snapshot without touching the selection — see the
counterexample.) -/
theorem C5_selection_cleared :
    (∀ (T : Trig) (tool : ToolType) (color : String) (coords : Point) (b : BoardState),
       isDrawTool tool = true → (handleStart T tool color coords b).selectedStrokeIds = [])
    ∧ (∀ b : BoardState, (boardClear b).selectedStrokeIds = []) := by
  constructor
  · intro T tool color coords b h
    simp [handleStart, h]
  · intro b
    rfl

/-- Witness for C5 (corrected): starting a chalk stroke clears the
selection. -/
theorem C5_witness :
    (handleStart T0 .chalk "#fff" ⟨0, 0⟩ initialBoard).selectedStrokeIds = [] :=
  C5_selection_cleared.1 T0 .chalk "#fff" ⟨0, 0⟩ initialBoard rfl

/-- C8: at drawing-gesture end, a stroke with fewer than 2 points for
the shape types, or zero points for freehand, is silently discarded —
the history and its index are unchanged and the gesture state is
reset; otherwise the stroke is normalized and appended to the document
through a single history push. -/
theorem C8_degenerate_stroke_discarded (T : Trig) (tool : ToolType) (color freshId : String)
    (b : BoardState) (cs : CurrentStroke)
    (hD : b.isDrawing = true) (hC : b.currentStroke = some cs) :
    (((cs.type = .rect ∨ cs.type = .circle ∨ cs.type = .arrow) ∧ cs.points.length < 2)
      ∨ (cs.type = .freehand ∧ cs.points.length = 0) →
      ((handleEnd T tool color freshId b).history = b.history
       ∧ (handleEnd T tool color freshId b).historyIndex = b.historyIndex
       ∧ (handleEnd T tool color freshId b).currentStroke = none
       ∧ (handleEnd T tool color freshId b).isDrawing = false))
    ∧ (2 ≤ cs.points.length ∨ (cs.type = .freehand ∧ 1 ≤ cs.points.length) →
      handleEnd T tool color freshId b =
        { boardPush b (strokesOf b ++
            [⟨freshId, cs.type, (normalizePoints cs.points).points,
              if cs.color = "" then color else cs.color,
              if cs.width = 0 then 4 else cs.width,
              (normalizePoints cs.points).offset, 0⟩])
          with currentStroke := none, isDrawing := false }) := by
  rcases b with ⟨hist, idx, cur, isD, sel, sbox, inter⟩
  obtain rfl : isD = true := hD
  obtain rfl : cur = some cs := hC
  constructor
  · intro hdeg
    have hcond : ¬ (cs.points.length > 1 ∨ (cs.type = .freehand ∧ cs.points.length > 0)) := by
      rcases hdeg with ⟨htype, hlen⟩ | ⟨htype, hlen⟩
      · push_neg
        refine ⟨by omega, fun hfree => ?_⟩
        exfalso
        rcases htype with h | h | h <;> rw [h] at hfree <;> cases hfree
      · push_neg
        exact ⟨by omega, fun _ => by omega⟩
    have hEnd : handleEnd T tool color freshId ⟨hist, idx, some cs, true, sel, sbox, inter⟩
        = ⟨hist, idx, none, false, sel, sbox, inter⟩ := by
      simp only [handleEnd]
      rw [if_neg hcond]
    rw [hEnd]
    exact ⟨rfl, rfl, rfl, rfl⟩
  · intro hcommit
    have hcond : cs.points.length > 1 ∨ (cs.type = .freehand ∧ cs.points.length > 0) := by
      rcases hcommit with h | ⟨ht, hl⟩
      · left; omega
      · by_cases h2 : cs.points.length > 1
        · left; exact h2
        · right; exact ⟨ht, by omega⟩
    simp only [handleEnd]
    rw [if_pos hcond]

/-- Witness for C8: ending a rect gesture holding a single point
leaves the history, and its index, untouched. -/
theorem C8_witness :
    (handleEnd T0 .rect "#fff" "w"
        ⟨[[]], 0, some ⟨.rect, [⟨1, 2⟩], "#fff", 4⟩, true, [], none,
          ⟨.idle, none, ⟨0, 0⟩, []⟩⟩).history = [[]]
    ∧ (handleEnd T0 .rect "#fff" "w"
        ⟨[[]], 0, some ⟨.rect, [⟨1, 2⟩], "#fff", 4⟩, true, [], none,
          ⟨.idle, none, ⟨0, 0⟩, []⟩⟩).historyIndex = 0 := by
  obtain ⟨h1, h2, -, -⟩ :=
    (C8_degenerate_stroke_discarded T0 .rect "#fff" "w"
      ⟨[[]], 0, some ⟨.rect, [⟨1, 2⟩], "#fff", 4⟩, true, [], none, ⟨.idle, none, ⟨0, 0⟩, []⟩⟩
      ⟨.rect, [⟨1, 2⟩], "#fff", 4⟩ rfl rfl).1
      (Or.inl ⟨Or.inl rfl, by norm_num⟩)
  exact ⟨h1, h2⟩

/-- The eraser filter keeps every stroke when the pointer hits
nothing. -/
lemma filter_no_hit (T : Trig) (c : Point) (l : List Stroke)
    (h : ∀ s ∈ l, hitTestStrokeAt T s c = false) :
    (l.filter fun s => !hitTestStrokeAt T s c) = l := by
  rw [List.filter_eq_self]
  intro a ha
  simp [h a ha]

/-- Eraser pointer-down that removes nothing only raises the drawing
flag. -/
lemma handleStart_eraser_nohit (T : Trig) (color : String) (c0 : Point) (b : BoardState)
    (h : ∀ s ∈ strokesOf b, hitTestStrokeAt T s c0 = false) :
    handleStart T .eraser color c0 b = { b with isDrawing := true } := by
  simp only [handleStart, isDrawTool]
  rw [filter_no_hit T c0 _ h]
  simp

/-- Eraser pointer-move that removes nothing leaves the state
untouched. -/
lemma handleMove_eraser_nohit (T : Trig) (c : Point) (b : BoardState)
    (hD : b.isDrawing = true) (hC : b.currentStroke = none)
    (h : ∀ s ∈ strokesOf b, hitTestStrokeAt T s c = false) :
    handleMove T .eraser c b = b := by
  rcases b with ⟨hist, idx, cur, isD, sel, sbox, inter⟩
  obtain rfl : isD = true := hD
  obtain rfl : cur = none := hC
  simp only [handleMove]
  rw [filter_no_hit T c _ h]
  simp

/-- Eraser pointer-up always pushes the current snapshot. -/
lemma handleEnd_eraser (T : Trig) (color freshId : String) (b : BoardState)
    (hD : b.isDrawing = true) (hC : b.currentStroke = none) :
    handleEnd T .eraser color freshId b
      = { boardPush b (strokesOf b) with isDrawing := false } := by
  rcases b with ⟨hist, idx, cur, isD, sel, sbox, inter⟩
  obtain rfl : isD = true := hD
  obtain rfl : cur = none := hC
  rfl

lemma foldl_eraser_nohit (T : Trig) (cs : List Point) :
    ∀ b : BoardState, b.isDrawing = true → b.currentStroke = none →
      (∀ s ∈ strokesOf b, ∀ c ∈ cs, hitTestStrokeAt T s c = false) →
      cs.foldl (fun st c => handleMove T .eraser c st) b = b := by
  induction cs with
  | nil => intro b _ _ _; rfl
  | cons c rest ih =>
    intro b hD hC h
    rw [List.foldl_cons,
      handleMove_eraser_nohit T c b hD hC (fun s hs => h s hs c (by simp)),
      ih b hD hC (fun s hs c' hc' => h s hs c' (by simp [hc']))]

lemma getD_of_getLast? {α : Type} (l : List α) (a d : α) (h : l.getLast? = some a) :
    l.getD (l.length - 1) d = a := by
  rw [List.getLast?_eq_getElem?] at h
  simp [List.getD, h]

/-- C10: every eraser gesture pushes a snapshot on pointer-up, even
when no stroke was hit at any pointer position of the gesture; such a
no-op gesture appends a snapshot equal to the current one, consuming
an undo slot (the index advances and the appended tail equals the
current snapshot, with the redo branch beyond the index dropped by the
push). -/
theorem C10_eraser_always_pushes (T : Trig) (color freshId : String) (b : BoardState)
    (c0 : Point) (cs : List Point)
    (hC : b.currentStroke = none)
    (hHit : ∀ s ∈ strokesOf b, ∀ c ∈ c0 :: cs, hitTestStrokeAt T s c = false) :
    handleEnd T .eraser color freshId
        (cs.foldl (fun st c => handleMove T .eraser c st) (handleStart T .eraser color c0 b))
      = { boardPush b (strokesOf b) with isDrawing := false }
    ∧ (b.historyIndex < b.history.length → b.history.length ≤ 50 →
        (strokesOf { boardPush b (strokesOf b) with isDrawing := false } = strokesOf b
         ∧ (boardPush b (strokesOf b)).historyIndex = min (b.historyIndex + 1) 49
         ∧ (boardPush b (strokesOf b)).history.length = min (b.historyIndex + 2) 50
         ∧ (boardPush b (strokesOf b)).history.getLast? = some (strokesOf b)
         ∧ 0 < (boardPush b (strokesOf b)).historyIndex)) := by
  have hb1 : handleStart T .eraser color c0 b = { b with isDrawing := true } :=
    handleStart_eraser_nohit T color c0 b (fun s hs => hHit s hs c0 (by simp))
  have hfold : cs.foldl (fun st c => handleMove T .eraser c st)
      (handleStart T .eraser color c0 b) = { b with isDrawing := true } := by
    rw [hb1]
    exact foldl_eraser_nohit T cs { b with isDrawing := true } rfl hC
      (fun s hs c hc => hHit s hs c (by simp [hc]))
  constructor
  · rw [hfold, handleEnd_eraser T color freshId { b with isDrawing := true } rfl hC]
    rfl
  · intro hIdx hLen
    obtain ⟨hL, hI, hT', hLast, -, -⟩ :=
      pushToHistory_core ⟨b.history, b.historyIndex⟩ (strokesOf b) hIdx hLen
    have hhist : (boardPush b (strokesOf b)).history
        = (pushToHistory ⟨b.history, b.historyIndex⟩ (strokesOf b)).hist := rfl
    have hidx : (boardPush b (strokesOf b)).historyIndex
        = (pushToHistory ⟨b.history, b.historyIndex⟩ (strokesOf b)).index := rfl
    refine ⟨?_, by rw [hidx, hI], by rw [hhist, hL], by rw [hhist]; exact hLast, ?_⟩
    · show (boardPush b (strokesOf b)).history.getD
        (boardPush b (strokesOf b)).historyIndex [] = strokesOf b
      rw [hhist, hidx]
      have hidx' : (pushToHistory ⟨b.history, b.historyIndex⟩ (strokesOf b)).index
          = (pushToHistory ⟨b.history, b.historyIndex⟩ (strokesOf b)).hist.length - 1 := by
        omega
      rw [hidx']
      exact getD_of_getLast? _ _ _ hLast
    · rw [hidx, hI]
      omega

/-- Witness for C10: an eraser click plus one move on the empty
document still pushes a snapshot on pointer-up. -/
theorem C10_witness :
    handleEnd T0 .eraser "#fff" "w"
        (([⟨1, 1⟩] : List Point).foldl (fun st c => handleMove T0 .eraser c st)
          (handleStart T0 .eraser "#fff" ⟨0, 0⟩ initialBoard))
      = { boardPush initialBoard (strokesOf initialBoard) with isDrawing := false } :=
  (C10_eraser_always_pushes T0 "#fff" "w" initialBoard ⟨0, 0⟩ [⟨1, 1⟩] rfl
    (by intro s hs c hc; simp [strokesOf, initialBoard] at hs)).1

/-- Dragging composes: two successive per-frame deltas amount to their
sum. -/
lemma dragMapBody_comp (sel : SelectionIds) (d1x d1y d2x d2y : ℚ) (s : Stroke) :
    dragMapBody sel d2x d2y (dragMapBody sel d1x d1y s)
      = dragMapBody sel (d1x + d2x) (d1y + d2y) s := by
  rcases s with ⟨id, ty, pts, col, w, ⟨px, py⟩, rot⟩
  by_cases h : id ∈ sel <;>
    simp [dragMapBody, h, add_assoc]

/-- Dragging by the zero delta is the identity. -/
lemma dragMapBody_zero (sel : SelectionIds) (s : Stroke) :
    dragMapBody sel 0 0 s = s := by
  rcases s with ⟨id, ty, pts, col, w, ⟨px, py⟩, rot⟩
  by_cases h : id ∈ sel <;> simp [dragMapBody, h]

lemma getLast?_cons_getD (c : Point) (rest : List Point) (sp : Point) :
    (c :: rest).getLast?.getD sp = rest.getLast?.getD c := by
  cases rest with
  | nil => rfl
  | cons r t =>
    rw [List.getLast?_cons_cons]
    cases h : (r :: t).getLast? with
    | none => simp [List.getLast?_eq_none_iff] at h
    | some a => rfl

/-- Net effect of a sequence of drag moves on the tracked state: the
current snapshot is the original one with every selected stroke
shifted by the cumulative delta from the gesture start position to the
last pointer position; selection, history index and length are
untouched and the state stays in the drag interaction. -/
lemma drag_fold (T : Trig) (moves : List Point) :
    ∀ b : BoardState, b.isDrawing = false → b.interaction.type = .drag →
      b.historyIndex < b.history.length →
      strokesOf (moves.foldl (fun st c => handleMove T .select c st) b)
        = (strokesOf b).map (dragMapBody b.selectedStrokeIds
            ((moves.getLast?.getD b.interaction.startPos).x - b.interaction.startPos.x)
            ((moves.getLast?.getD b.interaction.startPos).y - b.interaction.startPos.y))
      ∧ (moves.foldl (fun st c => handleMove T .select c st) b).selectedStrokeIds
          = b.selectedStrokeIds
      ∧ (moves.foldl (fun st c => handleMove T .select c st) b).historyIndex = b.historyIndex
      ∧ (moves.foldl (fun st c => handleMove T .select c st) b).history.length
          = b.history.length
      ∧ (moves.foldl (fun st c => handleMove T .select c st) b).isDrawing = false
      ∧ (moves.foldl (fun st c => handleMove T .select c st) b).interaction.type = .drag := by
  induction moves with
  | nil =>
    intro b hD hT hIdx
    refine ⟨?_, rfl, rfl, rfl, hD, hT⟩
    simp only [List.foldl_nil, List.getLast?_nil, Option.getD_none, sub_self]
    exact ((List.map_congr_left (fun s _ => dragMapBody_zero b.selectedStrokeIds s)).trans
      (List.map_id _)).symm
  | cons c rest ih =>
    intro b hD hT hIdx
    simp only [List.foldl_cons]
    have h1 := handleMove_drag T c b hD hT
    have hb1hist : (handleMove T .select c b).history
        = b.history.set b.historyIndex ((strokesOf b).map (dragMapBody b.selectedStrokeIds
            (c.x - b.interaction.startPos.x) (c.y - b.interaction.startPos.y))) := by
      rw [h1]
    have hb1idx : (handleMove T .select c b).historyIndex = b.historyIndex := by rw [h1]
    have hb1len : (handleMove T .select c b).history.length = b.history.length := by
      rw [hb1hist, List.length_set]
    have hb1sel : (handleMove T .select c b).selectedStrokeIds = b.selectedStrokeIds := by
      rw [h1]
    have hb1D : (handleMove T .select c b).isDrawing = false := by rw [h1]; exact hD
    have hb1T : (handleMove T .select c b).interaction.type = .drag := by rw [h1]; exact hT
    have hb1start : (handleMove T .select c b).interaction.startPos = c := by rw [h1]
    have hb1strokes : strokesOf (handleMove T .select c b)
        = (strokesOf b).map (dragMapBody b.selectedStrokeIds
            (c.x - b.interaction.startPos.x) (c.y - b.interaction.startPos.y)) := by
      unfold strokesOf
      rw [hb1hist, hb1idx]
      simp [strokesOf, List.getD, List.getElem?_set_self, hIdx]
    obtain ⟨ihS, ihSel, ihIdx, ihLen, ihD, ihT⟩ :=
      ih (handleMove T .select c b) hb1D hb1T (by rw [hb1idx, hb1len]; exact hIdx)
    refine ⟨?_, by rw [ihSel, hb1sel], by rw [ihIdx, hb1idx], by rw [ihLen, hb1len],
      ihD, ihT⟩
    rw [ihS, hb1strokes, hb1sel, hb1start, List.map_map, getLast?_cons_getD]
    apply List.map_congr_left
    intro s _
    show dragMapBody b.selectedStrokeIds _ _ (dragMapBody b.selectedStrokeIds _ _ s) = _
    rw [dragMapBody_comp]
    congr 1 <;> ring

/-- C9: during a drag gesture, the net effect of any sequence of
pointer moves on the tracked snapshot is to add the cumulative pointer
delta to the `position` of every selected stroke and nothing else:
selected strokes change only their `position` field (the record update
keeps `id`, `type`, `points`, `color`, `width` and `rotation`),
unselected strokes are returned unchanged, and the selection itself
and the history index are untouched. -/
theorem C9_drag_moves_position_only (T : Trig) (b : BoardState) (moves : List Point)
    (hD : b.isDrawing = false) (hT : b.interaction.type = .drag)
    (hIdx : b.historyIndex < b.history.length) :
    strokesOf (moves.foldl (fun st c => handleMove T .select c st) b)
      = (strokesOf b).map (dragMapBody b.selectedStrokeIds
          ((moves.getLast?.getD b.interaction.startPos).x - b.interaction.startPos.x)
          ((moves.getLast?.getD b.interaction.startPos).y - b.interaction.startPos.y))
    ∧ (∀ (dx dy : ℚ) (s : Stroke), b.selectedStrokeIds.contains s.id = true →
        dragMapBody b.selectedStrokeIds dx dy s
          = { s with position := ⟨s.position.x + dx, s.position.y + dy⟩ })
    ∧ (∀ (dx dy : ℚ) (s : Stroke), b.selectedStrokeIds.contains s.id = false →
        dragMapBody b.selectedStrokeIds dx dy s = s)
    ∧ (moves.foldl (fun st c => handleMove T .select c st) b).selectedStrokeIds
        = b.selectedStrokeIds
    ∧ (moves.foldl (fun st c => handleMove T .select c st) b).historyIndex
        = b.historyIndex := by
  obtain ⟨hS, hSel, hIdx', -, -, -⟩ := drag_fold T moves b hD hT hIdx
  refine ⟨hS, ?_, ?_, hSel, hIdx'⟩
  · intro dx dy s h
    have h' : s.id ∈ b.selectedStrokeIds := by simpa using h
    simp [dragMapBody, h']
  · intro dx dy s h
    have h' : s.id ∉ b.selectedStrokeIds := by simpa using h
    simp [dragMapBody, h']

/-- Witness for C9: one drag move by `(5, 5)` in the concrete trace
shifts the selected stroke position by the cumulative delta. -/
theorem C9_witness :
    strokesOf (([⟨5, 5⟩] : List Point).foldl
        (fun st c => handleMove T0 .select c st) dragStartBoard)
      = (strokesOf dragStartBoard).map (dragMapBody dragStartBoard.selectedStrokeIds
          ((([⟨5, 5⟩] : List Point).getLast?.getD dragStartBoard.interaction.startPos).x
            - dragStartBoard.interaction.startPos.x)
          ((([⟨5, 5⟩] : List Point).getLast?.getD dragStartBoard.interaction.startPos).y
            - dragStartBoard.interaction.startPos.y)) :=
  (C9_drag_moves_position_only T0 dragStartBoard [⟨5, 5⟩] rfl rfl
    (by norm_num [dragStartBoard])).1

/-- Counterexample to C5 as stated: a reachable state (draw a stroke,
click-select it, release, undo twice) whose selection still holds id
`a` while the current snapshot is empty — the selection set is not a
subset of the ids present in the current snapshot. -/
theorem C5_counterexample :
    (boardUndo (boardUndo (handleEnd T0 .select "#fff" "x" (handleStart T0 .select "#fff" ⟨0, 0⟩
        (handleEnd T0 .chalk "#fff" "a" (handleMove T0 .chalk ⟨10, 0⟩
          (handleStart T0 .chalk "#fff" ⟨0, 0⟩ initialBoard))))))).selectedStrokeIds = ["a"]
    ∧ strokesOf (boardUndo (boardUndo (handleEnd T0 .select "#fff" "x"
        (handleStart T0 .select "#fff" ⟨0, 0⟩ (handleEnd T0 .chalk "#fff" "a"
          (handleMove T0 .chalk ⟨10, 0⟩
            (handleStart T0 .chalk "#fff" ⟨0, 0⟩ initialBoard))))))) = [] := by
  rw [trace_draw1, trace_draw2, trace_draw3, trace_select4, trace_click5]
  exact ⟨rfl, rfl⟩

/-! ## Hit testing a rect stroke (C7) -/

/-- Rotating a point about itself is the identity, whatever the
trigonometric values. -/
lemma rotatePointCS_self (cen : Point) (a b : ℚ) : rotatePointCS cen cen a b = cen := by
  rcases cen with ⟨cx, cy⟩
  simp [rotatePointCS]

/-- Rotating forward by an angle and back by its negation is the
identity, given the unit-circle identity for the passed cosine and
sine values. -/
lemma rotatePointCS_inv (p cen : Point) (c s : ℚ) (h : c ^ 2 + s ^ 2 = 1) :
    rotatePointCS (rotatePointCS p cen c (-s)) cen c s = p := by
  rcases p with ⟨px, py⟩
  rcases cen with ⟨cx, cy⟩
  simp only [rotatePointCS, Point.mk.injEq]
  constructor
  · linear_combination (px - cx) * h
  · linear_combination (py - cy) * h

set_option maxHeartbeats 1600000 in
/-- C7: for every rect stroke whose center keeps at least the
threshold 10 from every border (bounds at least 20 wide and 20 tall),
`hitTestStroke` with threshold 10 returns false at the exact center of
the rectangle and true at a point 2 units outside the left border
(taken in world space through the rotation of the stroke, whose
cosine/sine values for the negated rotation are any unit pair): a
hollow-border test, not a fill test. -/
theorem C7_hitTest_rect_border (st : Stroke) (c s : ℚ)
    (hType : st.type = .rect)
    (hW : 20 ≤ (getUnrotatedBounds st).width)
    (hH : 20 ≤ (getUnrotatedBounds st).height)
    (hUnit : c ^ 2 + s ^ 2 = 1) :
    hitTestStroke st c s (getCenter (getUnrotatedBounds st)) 10 = false
    ∧ hitTestStroke st c s
        (rotatePointCS
          ⟨(getUnrotatedBounds st).x - 2,
           (getUnrotatedBounds st).y + (getUnrotatedBounds st).height / 2⟩
          (getCenter (getUnrotatedBounds st)) c (-s)) 10 = true := by
  constructor
  · simp only [hitTestStroke, hType, getCenter]
    simp only [rotatePointCS_self]
    rw [if_neg]
    · simp only [decide_eq_false_iff_not]
      rintro (⟨-, habs⟩ | ⟨-, habs⟩)
      · rcases habs with h | h
        · rw [show (getUnrotatedBounds st).x + (getUnrotatedBounds st).width / 2
              - (getUnrotatedBounds st).x = (getUnrotatedBounds st).width / 2 by ring,
            abs_of_nonneg (by linarith)] at h
          linarith
        · rw [show (getUnrotatedBounds st).x + (getUnrotatedBounds st).width / 2
              - ((getUnrotatedBounds st).x + (getUnrotatedBounds st).width)
              = -((getUnrotatedBounds st).width / 2) by ring,
            abs_neg, abs_of_nonneg (by linarith)] at h
          linarith
      · rcases habs with h | h
        · rw [show (getUnrotatedBounds st).y + (getUnrotatedBounds st).height / 2
              - (getUnrotatedBounds st).y = (getUnrotatedBounds st).height / 2 by ring,
            abs_of_nonneg (by linarith)] at h
          linarith
        · rw [show (getUnrotatedBounds st).y + (getUnrotatedBounds st).height / 2
              - ((getUnrotatedBounds st).y + (getUnrotatedBounds st).height)
              = -((getUnrotatedBounds st).height / 2) by ring,
            abs_neg, abs_of_nonneg (by linarith)] at h
          linarith
    · rintro (h | h | h | h) <;> linarith
  · simp only [hitTestStroke, hType]
    simp only [rotatePointCS_inv _ _ _ _ hUnit]
    rw [if_neg]
    · simp only [decide_eq_true_eq]
      left
      refine ⟨⟨by linarith, by linarith⟩, Or.inl ?_⟩
      rw [show (⟨(getUnrotatedBounds st).x - 2,
            (getUnrotatedBounds st).y + (getUnrotatedBounds st).height / 2⟩ : Point).x
          - (getUnrotatedBounds st).x = -2 by simp]
      rw [abs_neg, abs_of_nonneg (by norm_num)]
      norm_num
    · rintro (h | h | h | h) <;> linarith

/-- Witness for C7: the concrete rect stroke with bounds
`(0, 0, 40, 30)` at rotation 0 (unit pair `(1, 0)`): center misses,
a point 2 left of the left border hits. -/
theorem C7_witness :
    hitTestStroke ⟨"r", .rect, [⟨0, 0⟩, ⟨40, 30⟩], "#fff", 4, ⟨0, 0⟩, 0⟩ 1 0
        (getCenter (getUnrotatedBounds ⟨"r", .rect, [⟨0, 0⟩, ⟨40, 30⟩], "#fff", 4, ⟨0, 0⟩, 0⟩))
        10 = false
    ∧ hitTestStroke ⟨"r", .rect, [⟨0, 0⟩, ⟨40, 30⟩], "#fff", 4, ⟨0, 0⟩, 0⟩ 1 0
        (rotatePointCS
          ⟨(getUnrotatedBounds ⟨"r", .rect, [⟨0, 0⟩, ⟨40, 30⟩], "#fff", 4, ⟨0, 0⟩, 0⟩).x - 2,
           (getUnrotatedBounds ⟨"r", .rect, [⟨0, 0⟩, ⟨40, 30⟩], "#fff", 4, ⟨0, 0⟩, 0⟩).y
             + (getUnrotatedBounds ⟨"r", .rect, [⟨0, 0⟩, ⟨40, 30⟩], "#fff", 4, ⟨0, 0⟩, 0⟩).height / 2⟩
          (getCenter (getUnrotatedBounds ⟨"r", .rect, [⟨0, 0⟩, ⟨40, 30⟩], "#fff", 4, ⟨0, 0⟩, 0⟩))
          1 (-0)) 10 = true :=
  C7_hitTest_rect_border ⟨"r", .rect, [⟨0, 0⟩, ⟨40, 30⟩], "#fff", 4, ⟨0, 0⟩, 0⟩ 1 0 rfl
    (by norm_num [getUnrotatedBounds, minFold, maxFold])
    (by norm_num [getUnrotatedBounds, minFold, maxFold])
    (by norm_num)

/-! ## Resize clamping (C4) -/

lemma minFold_map_mul (l : List ℚ) (a k : ℚ) (hk : 0 ≤ k) :
    minFold (l.map (fun v => v * k)) (a * k) = minFold l a * k := by
  induction l generalizing a with
  | nil => rfl
  | cons x t ih =>
    simp only [List.map_cons, minFold, List.foldl_cons]
    have hstep : (if x * k < a * k then x * k else a * k) = (if x < a then x else a) * k := by
      rcases lt_or_eq_of_le hk with hk' | hk'
      · by_cases hxa : x < a
        · rw [if_pos hxa, if_pos (mul_lt_mul_of_pos_right hxa hk')]
        · rw [if_neg hxa, if_neg (fun hcon => hxa ((mul_lt_mul_right hk').1 hcon))]
      · rw [← hk']
        simp
    rw [hstep]
    exact ih _

lemma maxFold_map_mul (l : List ℚ) (a k : ℚ) (hk : 0 ≤ k) :
    maxFold (l.map (fun v => v * k)) (a * k) = maxFold l a * k := by
  induction l generalizing a with
  | nil => rfl
  | cons x t ih =>
    simp only [List.map_cons, maxFold, List.foldl_cons]
    have hstep : (if x * k > a * k then x * k else a * k) = (if x > a then x else a) * k := by
      rcases lt_or_eq_of_le hk with hk' | hk'
      · by_cases hxa : x > a
        · rw [if_pos hxa, if_pos (mul_lt_mul_of_pos_right hxa hk')]
        · rw [if_neg hxa, if_neg (fun hcon => hxa ((mul_lt_mul_right hk').1 hcon))]
      · rw [← hk']
        simp
    rw [hstep]
    exact ih _

/-- Bounds of a stroke whose local points are the two corners `(0,0)`
and `(w,h)` with non-negative extents. -/
lemma bounds_two_corner (s : Stroke) (w h : ℚ) (hw : 0 ≤ w) (hh : 0 ≤ h)
    (hp : s.points = [⟨0, 0⟩, ⟨w, h⟩]) :
    getUnrotatedBounds s = ⟨s.position.x, s.position.y, w, h⟩ := by
  unfold getUnrotatedBounds
  rw [hp]
  simp only [List.map_cons, List.map_nil, minFold, maxFold, List.foldl_cons, List.foldl_nil]
  have h1 : ¬ w < (0 : ℚ) := not_lt.2 hw
  have h2 : ¬ h < (0 : ℚ) := not_lt.2 hh
  have h3 : (if w > (0 : ℚ) then w else 0) = w := by
    rcases lt_or_eq_of_le hw with h' | h'
    · rw [if_pos h']
    · rw [← h']
      simp
  have h4 : (if h > (0 : ℚ) then h else 0) = h := by
    rcases lt_or_eq_of_le hh with h' | h'
    · rw [if_pos h']
    · rw [← h']
      simp
  simp [h1, h2, h3, h4]

/-- Bounds of a stroke whose local points are those of `init` scaled
componentwise by non-negative factors. -/
lemma bounds_scaled (init r : Stroke) (kx ky : ℚ)
    (hkx : 0 ≤ kx) (hky : 0 ≤ ky)
    (hp : r.points = init.points.map (fun p => ⟨p.x * kx, p.y * ky⟩))
    (hne : init.points ≠ []) :
    (getUnrotatedBounds r).width = (getUnrotatedBounds init).width * kx
    ∧ (getUnrotatedBounds r).height = (getUnrotatedBounds init).height * ky := by
  obtain ⟨p0, ps, hcons⟩ := List.exists_cons_of_ne_nil hne
  unfold getUnrotatedBounds
  rw [hp, hcons]
  simp only [List.map_cons]
  have hxs : p0.x * kx :: List.map Point.x
        (List.map (fun p : Point => (⟨p.x * kx, p.y * ky⟩ : Point)) ps)
      = (p0.x :: ps.map Point.x).map (fun v => v * kx) := by
    simp only [List.map_cons, List.map_map]
    rfl
  have hys : p0.y * ky :: List.map Point.y
        (List.map (fun p : Point => (⟨p.x * kx, p.y * ky⟩ : Point)) ps)
      = (p0.y :: ps.map Point.y).map (fun v => v * ky) := by
    simp only [List.map_cons, List.map_map]
    rfl
  rw [hxs, hys, minFold_map_mul _ _ _ hkx, maxFold_map_mul _ _ _ hkx,
    minFold_map_mul _ _ _ hky, maxFold_map_mul _ _ _ hky]
  constructor <;> ring

/-- C4, corrected: in the resize step, the requested width/height are
clamped at 10 before the stroke is rewritten; for rect and circle
strokes the resulting unrotated bounds equal the clamped dimensions
(exactly 10 on an axis whose request fell below 10), and the same
holds for arrow strokes whose initial bounds have positive width and
height; a freehand stroke, however, is returned unchanged by the
resize map (no branch of the type dispatch covers it), so its bounds
are not clamped at all — see the counterexample. -/
theorem C4_resize_clamp_amended (initialStroke s : Stroke) (handle : Option ResizeHandle)
    (dx dy : ℚ) (bounds pre : BoundingBox) (newW newH : ℚ)
    (hbounds : bounds = getUnrotatedBounds initialStroke)
    (hpre : pre = resizeBox bounds handle dx dy)
    (hW : newW = if pre.width < 10 then 10 else pre.width)
    (hH : newH = if pre.height < 10 then 10 else pre.height) :
    (10 ≤ newW ∧ 10 ≤ newH
     ∧ (pre.width < 10 → newW = 10) ∧ (pre.height < 10 → newH = 10))
    ∧ (s.type = .rect ∨ s.type = .circle →
        (getUnrotatedBounds
            (resizeMapBody initialStroke s.id ⟨pre.x, pre.y, newW, newH⟩ bounds s)).width = newW
        ∧ (getUnrotatedBounds
            (resizeMapBody initialStroke s.id ⟨pre.x, pre.y, newW, newH⟩ bounds s)).height = newH)
    ∧ (s.type = .arrow → 0 < bounds.width → 0 < bounds.height →
        (getUnrotatedBounds
            (resizeMapBody initialStroke s.id ⟨pre.x, pre.y, newW, newH⟩ bounds s)).width = newW
        ∧ (getUnrotatedBounds
            (resizeMapBody initialStroke s.id ⟨pre.x, pre.y, newW, newH⟩ bounds s)).height = newH)
    ∧ (s.type = .freehand →
        resizeMapBody initialStroke s.id ⟨pre.x, pre.y, newW, newH⟩ bounds s = s) := by
  have hW10 : 10 ≤ newW := by
    rw [hW]
    split
    · exact le_rfl
    · next h => linarith [not_lt.1 h]
  have hH10 : 10 ≤ newH := by
    rw [hH]
    split
    · exact le_rfl
    · next h => linarith [not_lt.1 h]
  refine ⟨⟨hW10, hH10, fun h => by rw [hW, if_pos h], fun h => by rw [hH, if_pos h]⟩,
    ?_, ?_, ?_⟩
  · intro hty
    have hr : resizeMapBody initialStroke s.id ⟨pre.x, pre.y, newW, newH⟩ bounds s
        = { s with position := ⟨pre.x, pre.y⟩, points := [⟨0, 0⟩, ⟨newW, newH⟩] } := by
      rcases hty with h | h <;> simp [resizeMapBody, h]
    rw [hr, bounds_two_corner _ newW newH (by linarith) (by linarith) rfl]
    exact ⟨rfl, rfl⟩
  · intro hty hw hh
    have hr : resizeMapBody initialStroke s.id ⟨pre.x, pre.y, newW, newH⟩ bounds s
        = { s with
            position := ⟨pre.x, pre.y⟩,
            points := initialStroke.points.map
              (fun p => ⟨p.x * (newW / bounds.width), p.y * (newH / bounds.height)⟩) } := by
      simp [resizeMapBody, hty]
    have hne : initialStroke.points ≠ [] := by
      intro hnil
      rw [hbounds] at hw
      unfold getUnrotatedBounds at hw
      rw [hnil] at hw
      norm_num at hw
    have hsc := bounds_scaled initialStroke
      { s with
        position := ⟨pre.x, pre.y⟩,
        points := initialStroke.points.map
          (fun p => ⟨p.x * (newW / bounds.width), p.y * (newH / bounds.height)⟩) }
      (newW / bounds.width) (newH / bounds.height)
      (div_nonneg (by linarith) (le_of_lt hw)) (div_nonneg (by linarith) (le_of_lt hh))
      rfl hne
    rw [hr]
    rw [hsc.1, hsc.2, ← hbounds]
    constructor
    · rw [mul_comm, div_mul_cancel₀ _ (ne_of_gt hw)]
    · rw [mul_comm, div_mul_cancel₀ _ (ne_of_gt hh)]
  · intro hty
    simp [resizeMapBody, hty]

/-- Witness for C4 (corrected): resizing the concrete rect stroke of
bounds `(0, 0, 4, 4)` with the `se` handle by `(-3, 0)` requests
width 1 and height 4, both below 10, and the resulting bounds are
exactly 10 by 10. -/
theorem C4_witness :
    (getUnrotatedBounds (resizeMapBody strokeR strokeR.id
        ⟨(resizeBox (getUnrotatedBounds strokeR) (some .se) (-3) 0).x,
         (resizeBox (getUnrotatedBounds strokeR) (some .se) (-3) 0).y, 10, 10⟩
        (getUnrotatedBounds strokeR) strokeR)).width = 10
    ∧ (getUnrotatedBounds (resizeMapBody strokeR strokeR.id
        ⟨(resizeBox (getUnrotatedBounds strokeR) (some .se) (-3) 0).x,
         (resizeBox (getUnrotatedBounds strokeR) (some .se) (-3) 0).y, 10, 10⟩
        (getUnrotatedBounds strokeR) strokeR)).height = 10 :=
  (C4_resize_clamp_amended strokeR strokeR (some .se) (-3) 0
    (getUnrotatedBounds strokeR) (resizeBox (getUnrotatedBounds strokeR) (some .se) (-3) 0)
    10 10 rfl rfl
    (by norm_num [strokeR, getUnrotatedBounds, minFold, maxFold, resizeBox])
    (by norm_num [strokeR, getUnrotatedBounds, minFold, maxFold, resizeBox])).2.1
    (Or.inl rfl)

/-- Counterexample to C4 as stated: a resize gesture on the selected
freehand stroke `strokeF` (bounds `(0, 0, 4, 4)`, `se` handle,
pointer moved from `(4, 4)` to `(1, 4)`, so the requested width is 1,
below 10) leaves the stroke — and hence its bounds width of 4 —
completely unchanged: the resulting width is neither the requested
width nor the clamped 10, and it stays below the 10-unit minimum. -/
theorem C4_counterexample :
    strokesOf (handleMove T0 .select ⟨1, 4⟩ resizeBoard) = [strokeF]
    ∧ (resizeBox (getUnrotatedBounds strokeF) (some .se) (1 - 4) (4 - 4)).width < 10
    ∧ (getUnrotatedBounds strokeF).width = 4 := by
  refine ⟨?_, ?_, ?_⟩
  · norm_num [handleMove, resizeBoard, strokeF, T0, rotatePointCS, getCenter,
      getUnrotatedBounds, minFold, maxFold, resizeBox, resizeMapBody,
      boardUpdateCurrent, updateCurrentHistory, strokesOf]
    decide
  · norm_num [resizeBox, strokeF, getUnrotatedBounds, minFold, maxFold]
  · norm_num [strokeF, getUnrotatedBounds, minFold, maxFold]

end Quickboard
